import Mathlib

/-!
# Verification of the blast_wrapper result-stream filter/annotator

Shallow embedding of the core of `blast-wrapper/blast_wrapper.py`:

* `creat_dict`    — the FASTA sequence-index builder (lines 145-154);
* `blast_Parser`  — the hit-stream filter/annotator (lines 157-190);
* `review_output` — the header-only truncation pass (lines 193-197).

Strings are modelled as `List Char` (`Str`). A text file is a list of
lines exactly as Python text-mode iteration yields them: every line
except possibly the last carries its trailing newline character.
Python floats are modelled by `ℚ`; `float(...)` on the plain decimal
numerals produced by the alignment tool is `pyFloat`, `round(x, 1)` is
`pyRound1` (round half to even, exact on rationals), and `str` of the
rounded value is `floatStr1`.  The Python failure modes `IndexError`,
`ValueError` and `ZeroDivisionError` are modelled with `Except String`.
-/

abbrev Str := List Char

deriving instance DecidableEq for Except

/-- The sequence index: the `defaultdict(str)` built by `creat_dict`,
modelled as an association list with unique keys. -/
abbrev SeqDict := List (Str × Str)

/-- Python default whitespace, as recognised by `str.strip()` and `str.split()`. -/
def isSpaceChar (c : Char) : Bool :=
  c = ' ' || c = '\t' || c = '\n' || c = '\r' || c = '\x0b' || c = '\x0c'

/-- Model of `s.strip()`: drop whitespace from both ends. -/
def pyStrip (s : Str) : Str :=
  ((s.dropWhile isSpaceChar).reverse.dropWhile isSpaceChar).reverse

/-- Helper for `pySplitTab`, carrying the reversed current field. -/
def splitTabAux : Str → Str → List Str
  | [], acc => [acc.reverse]
  | c :: t, acc =>
    if c = '\t' then acc.reverse :: splitTabAux t []
    else splitTabAux t (c :: acc)

/-- Model of `s.split("\t")`: split at every tab, keeping empty fields
(so the result is never the empty list). -/
def pySplitTab (s : Str) : List Str := splitTabAux s []

/-- Helper for `pySplitWS`, carrying the reversed current token. -/
def splitWSAux : Str → Str → List Str
  | [], acc => if acc.isEmpty then [] else [acc.reverse]
  | c :: t, acc =>
    if isSpaceChar c then
      if acc.isEmpty then splitWSAux t []
      else acc.reverse :: splitWSAux t []
    else splitWSAux t (c :: acc)

/-- Model of `s.split()` (no argument): split on runs of whitespace,
dropping empty tokens. -/
def pySplitWS (s : Str) : List Str := splitWSAux s []

/-- Model of `l[i]` on a Python list: `IndexError` when out of range. -/
def pyGet {α : Type} (l : List α) (i : Nat) : Except String α :=
  match l.get? i with
  | some a => Except.ok a
  | none => Except.error "IndexError"

/-- Numeric value of a decimal digit character. -/
def digitVal (c : Char) : Nat := c.toNat - 48

/-- Numeric value of a string of decimal digits. -/
def digitsVal (l : Str) : Nat := l.foldl (fun a c => a * 10 + digitVal c) 0

/-- Assemble a rational from sign, integer-part value, fraction-part value
and fraction length: the value of the decimal numeral. -/
def mkDecimal (neg : Bool) (ipv fpv fplen : Nat) : ℚ :=
  let n : ℤ := (ipv * 10 ^ fplen + fpv : ℕ)
  mkRat (if neg then -n else n) (10 ^ fplen)

/-- Core of `float(s)` for the plain decimal numerals this tool produces
(optional surrounding whitespace, optional sign, digits with an optional
fractional part); anything else is a `ValueError` (`none`).  Exponent,
infinity and nan forms never occur in the parsed columns and are out of
scope. -/
def pyFloatCore (s : Str) : Option ℚ :=
  let t := pyStrip s
  let p : Bool × Str :=
    match t with
    | '-' :: r => (true, r)
    | '+' :: r => (false, r)
    | _ => (false, t)
  let ip := p.2.takeWhile Char.isDigit
  match p.2.dropWhile Char.isDigit with
  | [] => if ip.isEmpty then none else some (mkDecimal p.1 (digitsVal ip) 0 0)
  | '.' :: fp =>
    if fp.all Char.isDigit && !(ip.isEmpty && fp.isEmpty) then
      some (mkDecimal p.1 (digitsVal ip) (digitsVal fp) fp.length)
    else none
  | _ => none

/-- Model of Python `float(s)`: `ValueError` on malformed numerals. -/
def pyFloat (s : Str) : Except String ℚ :=
  match pyFloatCore s with
  | some q => Except.ok q
  | none => Except.error "ValueError"

/-- Exact multiplication of rationals, written out on numerators and
denominators so that it evaluates by kernel reduction; it agrees with
the field multiplication of `ℚ` (`ratMul_eq_mul`). -/
def ratMul (a b : ℚ) : ℚ := mkRat (a.num * b.num) (a.den * b.den)

/-- Exact subtraction of rationals, written out on numerators and
denominators so that it evaluates by kernel reduction; it agrees with
the field subtraction of `ℚ` (`ratSub_eq_sub`). -/
def ratSub (a b : ℚ) : ℚ :=
  mkRat (a.num * (b.den : ℤ) - b.num * (a.den : ℤ)) (a.den * b.den)

/-- Exact division of rationals, written out on numerators and
denominators so that it evaluates by kernel reduction; it agrees with
the field division of `ℚ` (`ratDiv_eq_div`). -/
def ratDiv (a b : ℚ) : ℚ :=
  mkRat (a.num * (if 0 ≤ b.num then (b.den : ℤ) else -(b.den : ℤ))) (a.den * b.num.natAbs)

/-- Model of Python float division: raises `ZeroDivisionError` on a zero
divisor. -/
def pyDiv (a b : ℚ) : Except String ℚ :=
  if b = 0 then Except.error "ZeroDivisionError" else Except.ok (ratDiv a b)

/-- Round to the nearest integer, ties to even (Python rounding mode),
written out on the numerator and denominator: `n` is the floor of `q`
and `rem / q.den` its fractional part, compared against one half. -/
def roundHalfEven (q : ℚ) : ℤ :=
  let n : ℤ := q.num.fdiv q.den
  let rem : ℤ := q.num - n * q.den
  if 2 * rem < (q.den : ℤ) then n
  else if (q.den : ℤ) < 2 * rem then n + 1
  else if n % 2 = 0 then n else n + 1

/-- Model of `round(q, 1)`. -/
def pyRound1 (q : ℚ) : ℚ := mkRat (roundHalfEven (ratMul q 10)) 10

/-- Character for a decimal digit. -/
def digitChar (n : Nat) : Char := Char.ofNat (48 + n)

/-- Fuelled decimal rendering of a natural number. -/
def natDigitsAux : Nat → Nat → Str
  | 0, _ => []
  | fuel + 1, n =>
    if n < 10 then [digitChar n]
    else natDigitsAux fuel (n / 10) ++ [digitChar (n % 10)]

/-- Decimal rendering of a natural number. -/
def natDigitsL (n : Nat) : Str := natDigitsAux (n + 1) n

/-- Rendering of an exact multiple of 1/10 the way Python prints the
result of `round(x, 1)` (always one digit after the point). -/
def floatStr1 (q : ℚ) : Str :=
  let k : ℤ := (ratMul q 10).num.fdiv ((ratMul q 10).den : ℤ)
  let a := k.natAbs
  (if k < 0 then ['-'] else []) ++ natDigitsL (a / 10) ++ '.' :: [digitChar (a % 10)]

/-- Reading `d[k]` on a `defaultdict(str)`: a missing key yields the
empty string (and the insertion this triggers does not change any later
lookup, so it is omitted). -/
def ddLookup : SeqDict → Str → Str
  | [], _ => []
  | (k, v) :: t, q => if k = q then v else ddLookup t q

/-- The statement `d[k] += s` on a `defaultdict(str)`. -/
def ddAppend : SeqDict → Str → Str → SeqDict
  | [], k, s => [(k, s)]
  | (k0, v) :: t, k, s =>
    if k0 = k then (k0, v ++ s) :: t else (k0, v) :: ddAppend t k s

/-- Model of `line.startswith(">")`. -/
def startsGt : Str → Bool
  | '>' :: _ => true
  | _ => false

/-- One iteration of the `creat_dict` loop (blast_wrapper.py lines
149-153).  The state is the current `name` and the dict.  A header line
computes `line[1:-1].split()[0]` (which can raise `IndexError`); any
other line appends its stripped text to the current entry. -/
def cdStep (st : Str × SeqDict) (line : Str) : Except String (Str × SeqDict) :=
  if startsGt line then do
    let name ← pyGet (pySplitWS ((line.drop 1).dropLast)) 0
    pure (name, st.2)
  else
    pure (st.1, ddAppend st.2 st.1 (pyStrip line))

/-- Embedding of `creat_dict` (blast_wrapper.py lines 145-154), the
FASTA sequence-index builder, over the list of lines of the file. -/
def creat_dict (lines : List Str) : Except String SeqDict :=
  (lines.foldlM cdStep ([], [])).map (fun st => st.2)

/-- State of the `blast_Parser` loop.  `times` and `querLast` are the
two Python loop variables; `out` collects the emitted rows (each a list
of fields, one output line).  `considered` is a ghost field recording
the records that passed the per-query cap check and reached threshold
evaluation; it does not influence `out`. -/
structure PState where
  times : Nat
  querLast : Str
  considered : List (List Str)
  out : List (List Str)
deriving Repr, DecidableEq

/-- Coverage computation of blast_wrapper.py lines 181-182:
`qstart, qend, qlen = map(float, (items[6], items[7], items[10]))` and
`qcov = 100 * (qend - qstart) / qlen`. -/
def covOf (items : List Str) : Except String ℚ := do
  let qstart ← pyFloat (← pyGet items 6)
  let qend ← pyFloat (← pyGet items 7)
  let qlen ← pyFloat (← pyGet items 10)
  pyDiv (ratMul 100 (ratSub qend qstart)) qlen

/-- Shape of an emitted row (blast_wrapper.py lines 186-189): the
original fields, then `str(round(qcov, 1))`, then — only when the
supplied dict is non-empty (`if seq_dict:`) — the `defaultdict` lookup
of the query id. -/
def emitForm (sd : SeqDict) (quer : Str) (items : List Str) (cov : ℚ) : List Str :=
  let items1 := items ++ [floatStr1 (pyRound1 cov)]
  if sd.isEmpty then items1 else items1 ++ [ddLookup sd quer]

/-- Body of the `blast_Parser` loop after the cap check (lines 181-190):
parse the numeric fields, compute coverage, test the thresholds, emit. -/
def pyConsider (idt qc : ℚ) (sd : SeqDict) (st : PState)
    (items : List Str) (quer : Str) : Except String PState := do
  let qcov ← covOf items
  let ident ← pyFloat (← pyGet items 2)
  let st1 : PState := { st with considered := st.considered ++ [items] }
  if ident < idt ∨ qcov < qc then pure st1
  else pure { st1 with out := st1.out ++ [emitForm sd quer items qcov] }

/-- One iteration of the `blast_Parser` loop (lines 171-190): split the
line, apply the per-query cap bookkeeping, then (unless capped) evaluate
the record. -/
def pyStep (idt qc : ℚ) (ms : ℤ) (sd : SeqDict) (st : PState)
    (line : Str) : Except String PState := do
  let items := pySplitTab (pyStrip line)
  let quer ← pyGet items 0
  if quer = st.querLast then
    if ((st.times + 1 : ℕ) : ℤ) > ms then pure { st with times := st.times + 1 }
    else pyConsider idt qc sd { st with times := st.times + 1 } items quer
  else
    pyConsider idt qc sd { st with times := 1, querLast := quer } items quer

/-- Initial loop state: `times = 0`, `quer_last = ""`. -/
def initState : PState := ⟨0, [], [], []⟩

/-- Embedding of `blast_Parser` (lines 157-190) over the list of input
lines.  `dict?` models the `*dict` varargs: `none` when no dict was
passed, `some sd` when one was; `seq_dict` is then `{}` or `sd`. -/
def blast_Parser (idt qc : ℚ) (ms : ℤ) (dict? : Option SeqDict)
    (lines : List Str) : Except String PState :=
  lines.foldlM (pyStep idt qc ms (dict?.getD [])) initState

/-- Query id of an input line as the parser reads it: `items[0]`
(total, because `pySplitTab` never returns the empty list). -/
def lineQid (line : Str) : Str := (pySplitTab (pyStrip line)).headI

/-- Collapse adjacent equal elements to single representatives. -/
def collapseRuns : List Str → List Str
  | [] => []
  | [a] => [a]
  | a :: b :: t =>
    if a = b then collapseRuns (b :: t) else a :: collapseRuns (b :: t)

/-- A stream of ids is grouped when equal ids are contiguous, i.e. the
run-collapsed list has no duplicates. -/
def Grouped (l : List Str) : Prop := (collapseRuns l).Nodup

instance (l : List Str) : Decidable (Grouped l) :=
  inferInstanceAs (Decidable (collapseRuns l).Nodup)

/-- Number of rows of a row list whose query id (first field) is `q`. -/
def countQ (rows : List (List Str)) (q : Str) : Nat :=
  (rows.filter (fun r => r.headI = q)).length

/-- Per-line evaluation, independent of the loop state: what a record
contributes when it is not skipped by the cap — `none` when the
thresholds reject it, `some row` when it is emitted. -/
def lineEmit (idt qc : ℚ) (sd : SeqDict) (line : Str) :
    Except String (Option (List Str)) := do
  let items := pySplitTab (pyStrip line)
  let quer ← pyGet items 0
  let qcov ← covOf items
  let ident ← pyFloat (← pyGet items 2)
  pure (if ident < idt ∨ qcov < qc then none
        else some (emitForm sd quer items qcov))

/-- The 16-column header list of `main` (lines 224-228), used when the
qseq column is not suppressed. -/
def headerFull : List Str :=
  ["qid", "sid", "ident%", "aln_len", "miss",
   "gap", "qstart", "qend", "sstart", "send",
   "qlen", "slen", "evalue", "bitscore", "qcov%", "qseq"].map String.data

/-- Join a row of fields with tabs, as `"\t".join(items)`. -/
def joinTab : List Str → Str
  | [] => []
  | [x] => x
  | x :: xs => x ++ '\t' :: joinTab xs

/-- The lines of the output file written by `blast_Parser`: the joined
header followed by the joined emitted rows, in order. -/
def outputLines (header : List Str) (st : PState) : List Str :=
  joinTab header :: st.out.map joinTab

/-- Embedding of `review_output` (lines 193-197): if the file has
exactly one line, truncate it to nothing. -/
def review_output (ls : List Str) : List Str :=
  if ls.length = 1 then [] else ls

/-- Modelled from the spec: the identifier of a FASTA header line is
the first whitespace-delimited token after the `>` marker, with any
trailing line terminator stripped.  Used to compare the code's
`line[1:-1].split()[0]` against the spec's words. -/
def specHeaderIdent (line : Str) : Except String Str :=
  let content := line.drop 1
  let stripped := if content.getLast? = some '\n' then content.dropLast else content
  pyGet (pySplitWS stripped) 0

/-! ## Basic lemmas about the primitives -/

@[simp]
theorem exbind_ok {α β : Type} (a : α) (f : α → Except String β) :
    (Except.ok a >>= f) = f a := rfl

@[simp]
theorem exbind_error {α β : Type} (e : String) (f : α → Except String β) :
    ((Except.error e : Except String α) >>= f) = Except.error e := rfl

theorem splitTabAux_ne_nil (s acc : Str) : splitTabAux s acc ≠ [] := by
  induction s generalizing acc with
  | nil => simp [splitTabAux]
  | cons c t ih =>
    simp only [splitTabAux]
    split
    · simp
    · exact ih _

theorem pySplitTab_ne_nil (s : Str) : pySplitTab s ≠ [] :=
  splitTabAux_ne_nil s []

theorem pyGet_zero_eq_headI (s : Str) :
    pyGet (pySplitTab s) 0 = Except.ok (pySplitTab s).headI := by
  cases h : pySplitTab s with
  | nil => exact absurd h (pySplitTab_ne_nil s)
  | cons a t => simp [pyGet]

/-! ## C9: missing zero guard on the query length -/

/-- C9: the coverage computation divides by the parsed qlen field with no
zero guard: a record that is not skipped by the per-query cap and whose
qlen field parses to 0 makes the whole filtering pass abort with a
division error, whatever records follow. -/
theorem qlen_zero_division_aborts
    (idt qc : ℚ) (ms : ℤ) (dict? : Option SeqDict)
    (pre post : List Str) (line : Str) (st : PState)
    (f6 f7 f10 : Str) (qs qe : ℚ)
    (hpre : pre.foldlM (pyStep idt qc ms (dict?.getD [])) initState = Except.ok st)
    (hns : lineQid line = st.querLast → ¬ (((st.times + 1 : ℕ) : ℤ) > ms))
    (h6 : pyGet (pySplitTab (pyStrip line)) 6 = Except.ok f6)
    (hf6 : pyFloat f6 = Except.ok qs)
    (h7 : pyGet (pySplitTab (pyStrip line)) 7 = Except.ok f7)
    (hf7 : pyFloat f7 = Except.ok qe)
    (h10 : pyGet (pySplitTab (pyStrip line)) 10 = Except.ok f10)
    (hf10 : pyFloat f10 = Except.ok 0) :
    blast_Parser idt qc ms dict? (pre ++ line :: post) = Except.error "ZeroDivisionError" := by
  have hcov : covOf (pySplitTab (pyStrip line)) = Except.error "ZeroDivisionError" := by
    simp [covOf, h6, hf6, h7, hf7, h10, hf10, pyDiv]
  have hcons : ∀ st' : PState,
      pyConsider idt qc (dict?.getD []) st' (pySplitTab (pyStrip line))
        (pySplitTab (pyStrip line)).headI = Except.error "ZeroDivisionError" := by
    intro st'
    simp [pyConsider, hcov]
  have hstep : pyStep idt qc ms (dict?.getD []) st line = Except.error "ZeroDivisionError" := by
    simp only [pyStep, pyGet_zero_eq_headI, exbind_ok]
    by_cases h : (pySplitTab (pyStrip line)).headI = st.querLast
    · rw [if_pos h, if_neg (hns h), hcons]
    · rw [if_neg h, hcons]
  simp only [blast_Parser, List.foldlM_append, hpre, exbind_ok, List.foldlM_cons,
    hstep, exbind_error]

/-- Witness for C9: a concrete record with qlen field 0 aborts the pass
even though another record follows. -/
theorem qlen_zero_division_aborts_witness :
    blast_Parser 0 0 2 none
      ([] ++ "Q1\tS1\t95\t100\t0\t0\t1\t50\t1\t50\t0\t100\t0.001\t200".data ::
        ["Q2\tS1\t95\t100\t0\t0\t1\t50\t1\t50\t100\t100\t0.001\t200".data]) =
      Except.error "ZeroDivisionError" :=
  qlen_zero_division_aborts 0 0 2 none [] _ _ initState
    "1".data "50".data "0".data 1 50 rfl
    (by decide) rfl (by decide) rfl (by decide) rfl (by decide)

/-! ## The explicit rational operations agree with the field operations -/

theorem ratMul_eq_mul (a b : ℚ) : ratMul a b = a * b := by
  rw [ratMul, Rat.mul_def, Rat.normalize_eq_mkRat]

theorem ratSub_eq_sub (a b : ℚ) : ratSub a b = a - b := by
  rw [ratSub, Rat.sub_def']

theorem ratDiv_eq_div (a b : ℚ) : ratDiv a b = a / b := by
  rcases lt_trichotomy b.num 0 with hb | hb | hb
  · have habs : (b.num.natAbs : ℤ) = -b.num := Int.ofNat_natAbs_of_nonpos (le_of_lt hb)
    have hnum : b.num = -(b.num.natAbs : ℤ) := by omega
    rw [ratDiv, if_neg (not_le.2 hb), Rat.div_def, Rat.inv_def]
    conv_rhs => rw [← Rat.mkRat_self a, hnum, Rat.divInt_neg, ← Rat.neg_divInt,
      Rat.divInt_ofNat, Rat.neg_mkRat, Rat.mkRat_mul_mkRat]
  · have hb0 : b = 0 := Rat.zero_of_num_zero hb
    subst hb0
    simp [ratDiv, div_zero]
  · have habs : (b.num.natAbs : ℤ) = b.num := Int.natAbs_of_nonneg (le_of_lt hb)
    rw [ratDiv, if_pos (le_of_lt hb), Rat.div_def, Rat.inv_def]
    conv_rhs => rw [← Rat.mkRat_self a, ← habs, Rat.divInt_ofNat, Rat.mkRat_mul_mkRat]

/-! ## Helper lemmas about lookups and row shapes -/

theorem pyGet_zero_ok {α : Type} [Inhabited α] {l : List α} {a : α}
    (h : pyGet l 0 = Except.ok a) : l ≠ [] ∧ l.headI = a := by
  cases l with
  | nil => simp [pyGet] at h
  | cons x t =>
    simp only [pyGet, List.get?] at h
    cases h
    exact ⟨by simp, rfl⟩

theorem ddLookup_eq_nil {sd : SeqDict} {q : Str}
    (h : ∀ kv ∈ sd, kv.1 ≠ q) : ddLookup sd q = [] := by
  induction sd with
  | nil => rfl
  | cons kv t ih =>
    obtain ⟨k, v⟩ := kv
    show (if k = q then v else ddLookup t q) = []
    rw [if_neg (h (k, v) (by simp))]
    exact ih fun kv hm => h kv (by simp [hm])

/-! ## Shape of every emitted row -/

theorem pyConsider_out (idt qc : ℚ) (sd : SeqDict) (st : PState)
    (items : List Str) (quer : Str) (st1 : PState)
    (h : pyConsider idt qc sd st items quer = Except.ok st1) :
    st1.out = st.out ∨ ∃ cov, covOf items = Except.ok cov ∧
      st1.out = st.out ++ [emitForm sd quer items cov] := by
  cases hcov : covOf items with
  | error e => simp [pyConsider, hcov] at h
  | ok qcov =>
    cases h2 : pyGet items 2 with
    | error e => simp [pyConsider, hcov, h2] at h
    | ok f2 =>
      cases hfl : pyFloat f2 with
      | error e => simp [pyConsider, hcov, h2, hfl] at h
      | ok ident =>
        simp only [pyConsider, hcov, h2, hfl, exbind_ok] at h
        by_cases hth : ident < idt ∨ qcov < qc
        · rw [if_pos hth] at h
          cases h
          exact Or.inl rfl
        · rw [if_neg hth] at h
          cases h
          exact Or.inr ⟨qcov, rfl, rfl⟩

theorem pyStep_out (idt qc : ℚ) (ms : ℤ) (sd : SeqDict) (st st1 : PState)
    (line : Str) (h : pyStep idt qc ms sd st line = Except.ok st1) :
    st1.out = st.out ∨ ∃ items quer cov,
      pyGet items 0 = Except.ok quer ∧ covOf items = Except.ok cov ∧
      st1.out = st.out ++ [emitForm sd quer items cov] := by
  simp only [pyStep, pyGet_zero_eq_headI, exbind_ok] at h
  by_cases heq : (pySplitTab (pyStrip line)).headI = st.querLast
  · rw [if_pos heq] at h
    by_cases hcap : ((st.times + 1 : ℕ) : ℤ) > ms
    · rw [if_pos hcap] at h
      cases h
      exact Or.inl rfl
    · rw [if_neg hcap] at h
      rcases pyConsider_out _ _ _ _ _ _ _ h with h1 | ⟨cov, hc, h1⟩
      · exact Or.inl h1
      · exact Or.inr ⟨_, _, cov, pyGet_zero_eq_headI _, hc, h1⟩
  · rw [if_neg heq] at h
    rcases pyConsider_out _ _ _ _ _ _ _ h with h1 | ⟨cov, hc, h1⟩
    · exact Or.inl h1
    · exact Or.inr ⟨_, _, cov, pyGet_zero_eq_headI _, hc, h1⟩

theorem out_form (idt qc : ℚ) (ms : ℤ) (sd : SeqDict) (lines : List Str)
    (st0 st : PState)
    (h : lines.foldlM (pyStep idt qc ms sd) st0 = Except.ok st) :
    ∀ row ∈ st.out, row ∈ st0.out ∨ ∃ items quer cov,
      pyGet items 0 = Except.ok quer ∧ covOf items = Except.ok cov ∧
      row = emitForm sd quer items cov := by
  induction lines generalizing st0 with
  | nil =>
    simp only [List.foldlM_nil] at h
    cases h
    exact fun row hr => Or.inl hr
  | cons line t ih =>
    rw [List.foldlM_cons] at h
    cases hstep : pyStep idt qc ms sd st0 line with
    | error e => rw [hstep] at h; simp at h
    | ok st1 =>
      rw [hstep, exbind_ok] at h
      intro row hrow
      rcases ih st1 h row hrow with hmem | hex
      · rcases pyStep_out _ _ _ _ _ _ _ hstep with hout | ⟨items, quer, cov, hq, hc, hout⟩
        · rw [hout] at hmem
          exact Or.inl hmem
        · rw [hout, List.mem_append] at hmem
          rcases hmem with hmem | hmem
          · exact Or.inl hmem
          · rcases List.mem_singleton.mp hmem with rfl
            exact Or.inr ⟨items, quer, cov, hq, hc, rfl⟩
      · exact Or.inr hex

theorem headI_append_of_ne_nil {α : Type} [Inhabited α] {l : List α}
    (t : List α) (h : l ≠ []) : (l ++ t).headI = l.headI := by
  cases l with
  | nil => exact absurd rfl h
  | cons a l2 => rfl

/-! ## C2: the appended coverage field -/

/-- C2: every record the filter emits carries, directly after its
original fields, the rendering of `round(100*(qend-qstart)/qlen, 1)`
computed (by `covOf`) from that same record's qstart, qend and qlen
fields parsed as floats. -/
theorem emitted_coverage_formula
    (idt qc : ℚ) (ms : ℤ) (dict? : Option SeqDict) (lines : List Str) (st : PState)
    (hok : blast_Parser idt qc ms dict? lines = Except.ok st) :
    ∀ row ∈ st.out, ∃ items cov rest,
      covOf items = Except.ok cov ∧
      row = items ++ floatStr1 (pyRound1 cov) :: rest := by
  intro row hrow
  rcases out_form idt qc ms (dict?.getD []) lines initState st hok row hrow with
    hmem | ⟨items, quer, cov, hq, hc, hform⟩
  · simp [initState] at hmem
  · by_cases hsd : (dict?.getD []).isEmpty
    · exact ⟨items, cov, [], hc, by rw [hform]; simp [emitForm, hsd]⟩
    · exact ⟨items, cov, [ddLookup (dict?.getD []) quer], hc,
        by rw [hform]; simp [emitForm, hsd]⟩

/-- Witness for C2: a concrete record with qstart 1, qend 50, qlen 100 is
emitted with coverage field "49.0" (Scenario C). -/
theorem emitted_coverage_formula_witness :
    (∃ items cov rest,
      covOf items = Except.ok cov ∧
      (pySplitTab "Q1\tS1\t95\t100\t0\t0\t1\t50\t1\t50\t100\t100\t0.001\t200".data
        ++ ["49.0".data]) = items ++ floatStr1 (pyRound1 cov) :: rest) ∧
    covOf (pySplitTab "Q1\tS1\t95\t100\t0\t0\t1\t50\t1\t50\t100\t100\t0.001\t200".data)
      = Except.ok 49 ∧
    floatStr1 (pyRound1 49) = "49.0".data :=
  ⟨emitted_coverage_formula 0 0 1 none
      ["Q1\tS1\t95\t100\t0\t0\t1\t50\t1\t50\t100\t100\t0.001\t200".data]
      ⟨1, "Q1".data,
        [pySplitTab "Q1\tS1\t95\t100\t0\t0\t1\t50\t1\t50\t100\t100\t0.001\t200".data],
        [pySplitTab "Q1\tS1\t95\t100\t0\t0\t1\t50\t1\t50\t100\t100\t0.001\t200".data
          ++ ["49.0".data]]⟩
      (by decide) _ (by decide),
    by decide, by decide⟩

/-! ## C4: missing query id in the sequence index is non-fatal -/

/-- C4: when annotation is enabled (a non-empty sequence index was
supplied), every emitted record whose query id is absent from the index
carries the empty string as its appended sequence field, and the run as
a whole still completes (the hypothesis `hok` covers the entire input,
so later records are still processed). -/
theorem missing_id_empty_seq_field
    (idt qc : ℚ) (ms : ℤ) (sd : SeqDict) (lines : List Str) (st : PState)
    (hsd : sd ≠ [])
    (hok : blast_Parser idt qc ms (some sd) lines = Except.ok st) :
    ∀ row ∈ st.out, (∀ kv ∈ sd, kv.1 ≠ row.headI) →
      ∃ items cov, covOf items = Except.ok cov ∧
        row = items ++ [floatStr1 (pyRound1 cov), []] := by
  intro row hrow habs
  rcases out_form idt qc ms sd lines initState st hok row hrow with
    hmem | ⟨items, quer, cov, hq, hc, hform⟩
  · simp [initState] at hmem
  · obtain ⟨hne, hhead⟩ := pyGet_zero_ok hq
    have hsdE : sd.isEmpty = false := by
      cases sd with
      | nil => exact absurd rfl hsd
      | cons a t => rfl
    have hform2 : row = items ++ [floatStr1 (pyRound1 cov), ddLookup sd quer] := by
      rw [hform]; simp [emitForm, hsdE]
    have hhd : row.headI = quer := by
      rw [hform2, headI_append_of_ne_nil _ hne, hhead]
    have hdd : ddLookup sd quer = [] := by
      refine ddLookup_eq_nil ?_
      intro kv hm
      rw [← hhd]
      exact habs kv hm
    exact ⟨items, cov, hc, by rw [hform2, hdd]⟩

/-- Witness for C4: with index `{"QX": "ACGT"}`, a record for the absent
id Q1 is emitted with a trailing empty field, and a following record for
Q2 is still processed and emitted. -/
theorem missing_id_empty_seq_field_witness :
    (∃ items cov, covOf items = Except.ok cov ∧
      (pySplitTab "Q1\tS1\t95\t100\t0\t0\t1\t50\t1\t50\t100\t100\t0.001\t200".data
        ++ ["49.0".data, []]) = items ++ [floatStr1 (pyRound1 cov), []]) ∧
    (blast_Parser 0 0 1 (some [("QX".data, "ACGT".data)])
      ["Q1\tS1\t95\t100\t0\t0\t1\t50\t1\t50\t100\t100\t0.001\t200".data,
       "Q2\tS1\t95\t100\t0\t0\t1\t50\t1\t50\t100\t100\t0.001\t200".data]).map
        (fun s => s.out.length) = Except.ok 2 :=
  ⟨missing_id_empty_seq_field 0 0 1 [("QX".data, "ACGT".data)]
      ["Q1\tS1\t95\t100\t0\t0\t1\t50\t1\t50\t100\t100\t0.001\t200".data,
       "Q2\tS1\t95\t100\t0\t0\t1\t50\t1\t50\t100\t100\t0.001\t200".data]
      ⟨1, "Q2".data,
        [pySplitTab "Q1\tS1\t95\t100\t0\t0\t1\t50\t1\t50\t100\t100\t0.001\t200".data,
         pySplitTab "Q2\tS1\t95\t100\t0\t0\t1\t50\t1\t50\t100\t100\t0.001\t200".data],
        [pySplitTab "Q1\tS1\t95\t100\t0\t0\t1\t50\t1\t50\t100\t100\t0.001\t200".data
           ++ ["49.0".data, []],
         pySplitTab "Q2\tS1\t95\t100\t0\t0\t1\t50\t1\t50\t100\t100\t0.001\t200".data
           ++ ["49.0".data, []]]⟩
      (by decide) (by decide) _ (by decide) (by decide),
    by decide⟩

/-! ## C10: an empty index disables annotation entirely -/

/-- C10: if annotation is requested but the supplied index has no
entries, no sequence field at all is appended: every emitted row is the
original fields plus exactly one coverage field, while the header still
names 16 columns including qseq. -/
theorem empty_index_no_seq_field
    (idt qc : ℚ) (ms : ℤ) (lines : List Str) (st : PState)
    (hok : blast_Parser idt qc ms (some []) lines = Except.ok st) :
    (headerFull.length = 16 ∧ "qseq".data ∈ headerFull) ∧
    ∀ row ∈ st.out, ∃ items cov, covOf items = Except.ok cov ∧
      row = items ++ [floatStr1 (pyRound1 cov)] ∧ row.length = items.length + 1 := by
  refine ⟨by decide, ?_⟩
  intro row hrow
  rcases out_form idt qc ms [] lines initState st hok row hrow with
    hmem | ⟨items, quer, cov, hq, hc, hform⟩
  · simp [initState] at hmem
  · exact ⟨items, cov, hc, by rw [hform]; simp [emitForm],
      by rw [hform]; simp [emitForm]⟩

/-- Witness for C10: a 14-field record emitted under an empty index has
exactly 15 fields. -/
theorem empty_index_no_seq_field_witness :
    ((headerFull.length = 16 ∧ "qseq".data ∈ headerFull) ∧
      ∃ items cov, covOf items = Except.ok cov ∧
        (pySplitTab "Q1\tS1\t95\t100\t0\t0\t1\t50\t1\t50\t100\t100\t0.001\t200".data
          ++ ["49.0".data]) = items ++ [floatStr1 (pyRound1 cov)] ∧
        (pySplitTab "Q1\tS1\t95\t100\t0\t0\t1\t50\t1\t50\t100\t100\t0.001\t200".data
          ++ ["49.0".data]).length = items.length + 1) ∧
    (pySplitTab "Q1\tS1\t95\t100\t0\t0\t1\t50\t1\t50\t100\t100\t0.001\t200".data).length = 14 ∧
    (pySplitTab "Q1\tS1\t95\t100\t0\t0\t1\t50\t1\t50\t100\t100\t0.001\t200".data
      ++ ["49.0".data]).length = 15 :=
  ⟨⟨(empty_index_no_seq_field 0 0 1
      ["Q1\tS1\t95\t100\t0\t0\t1\t50\t1\t50\t100\t100\t0.001\t200".data]
      ⟨1, "Q1".data,
        [pySplitTab "Q1\tS1\t95\t100\t0\t0\t1\t50\t1\t50\t100\t100\t0.001\t200".data],
        [pySplitTab "Q1\tS1\t95\t100\t0\t0\t1\t50\t1\t50\t100\t100\t0.001\t200".data
          ++ ["49.0".data]]⟩
      (by decide)).1,
    (empty_index_no_seq_field 0 0 1
      ["Q1\tS1\t95\t100\t0\t0\t1\t50\t1\t50\t100\t100\t0.001\t200".data]
      ⟨1, "Q1".data,
        [pySplitTab "Q1\tS1\t95\t100\t0\t0\t1\t50\t1\t50\t100\t100\t0.001\t200".data],
        [pySplitTab "Q1\tS1\t95\t100\t0\t0\t1\t50\t1\t50\t100\t100\t0.001\t200".data
          ++ ["49.0".data]]⟩
      (by decide)).2 _ (by decide)⟩,
    by decide, by decide⟩

/-! ## C3: truncation of header-only output, and order preservation -/

theorem pyConsider_cases (idt qc : ℚ) (sd : SeqDict) (st : PState)
    (items : List Str) (quer : Str) (st1 : PState)
    (h : pyConsider idt qc sd st items quer = Except.ok st1) :
    ∃ qcov f2 ident, covOf items = Except.ok qcov ∧ pyGet items 2 = Except.ok f2 ∧
      pyFloat f2 = Except.ok ident ∧
      ((ident < idt ∨ qcov < qc) ∧ st1.out = st.out ∨
       ¬(ident < idt ∨ qcov < qc) ∧ st1.out = st.out ++ [emitForm sd quer items qcov]) := by
  cases hcov : covOf items with
  | error e => simp [pyConsider, hcov] at h
  | ok qcov =>
    cases h2 : pyGet items 2 with
    | error e => simp [pyConsider, hcov, h2] at h
    | ok f2 =>
      cases hfl : pyFloat f2 with
      | error e => simp [pyConsider, hcov, h2, hfl] at h
      | ok ident =>
        simp only [pyConsider, hcov, h2, hfl, exbind_ok] at h
        by_cases hth : ident < idt ∨ qcov < qc
        · rw [if_pos hth] at h
          cases h
          exact ⟨qcov, f2, ident, rfl, rfl, hfl, Or.inl ⟨hth, rfl⟩⟩
        · rw [if_neg hth] at h
          cases h
          exact ⟨qcov, f2, ident, rfl, rfl, hfl, Or.inr ⟨hth, rfl⟩⟩

theorem pyStep_out2 (idt qc : ℚ) (ms : ℤ) (sd : SeqDict) (st st1 : PState)
    (line : Str) (h : pyStep idt qc ms sd st line = Except.ok st1) :
    st1.out = st.out ∨ ∃ row, lineEmit idt qc sd line = Except.ok (some row) ∧
      st1.out = st.out ++ [row] := by
  simp only [pyStep, pyGet_zero_eq_headI, exbind_ok] at h
  by_cases heq : (pySplitTab (pyStrip line)).headI = st.querLast
  · rw [if_pos heq] at h
    by_cases hcap : ((st.times + 1 : ℕ) : ℤ) > ms
    · rw [if_pos hcap] at h
      cases h
      exact Or.inl rfl
    · rw [if_neg hcap] at h
      rcases pyConsider_cases _ _ _ _ _ _ _ h with ⟨qcov, f2, ident, hcov, h2, hfl, hca⟩
      rcases hca with ⟨hth, hout⟩ | ⟨hth, hout⟩
      · exact Or.inl hout
      · refine Or.inr ⟨_, ?_, hout⟩
        simp [lineEmit, pyGet_zero_eq_headI, hcov, h2, hfl, hth]
  · rw [if_neg heq] at h
    rcases pyConsider_cases _ _ _ _ _ _ _ h with ⟨qcov, f2, ident, hcov, h2, hfl, hca⟩
    rcases hca with ⟨hth, hout⟩ | ⟨hth, hout⟩
    · exact Or.inl hout
    · refine Or.inr ⟨_, ?_, hout⟩
      simp [lineEmit, pyGet_zero_eq_headI, hcov, h2, hfl, hth]

theorem out_order (idt qc : ℚ) (ms : ℤ) (sd : SeqDict) (lines : List Str)
    (st0 st : PState)
    (h : lines.foldlM (pyStep idt qc ms sd) st0 = Except.ok st) :
    ∃ tail S, st.out = st0.out ++ tail ∧ S.Sublist lines ∧
      List.Forall₂ (fun l row => lineEmit idt qc sd l = Except.ok (some row)) S tail := by
  induction lines generalizing st0 with
  | nil =>
    simp only [List.foldlM_nil] at h
    cases h
    exact ⟨[], [], by simp, List.nil_sublist _, List.Forall₂.nil⟩
  | cons line t ih =>
    rw [List.foldlM_cons] at h
    cases hstep : pyStep idt qc ms sd st0 line with
    | error e => rw [hstep] at h; simp at h
    | ok st1 =>
      rw [hstep, exbind_ok] at h
      rcases ih st1 h with ⟨tail1, S1, hout1, hsub1, hfa1⟩
      rcases pyStep_out2 _ _ _ _ _ _ _ hstep with hsame | ⟨row, hle, hout⟩
      · exact ⟨tail1, S1, by rw [hout1, hsame], hsub1.cons _, hfa1⟩
      · refine ⟨row :: tail1, line :: S1, ?_, hsub1.cons₂ _, List.Forall₂.cons hle hfa1⟩
        rw [hout1, hout, List.append_assoc]
        rfl

/-- C3: when the run completes, an output with zero passing data rows is
truncated by `review_output` to nothing (no header-only file), and an
output with at least one data row keeps the header line followed by the
emitted rows, which occur in input order (they are the per-line
evaluations of a sublist of the input lines). -/
theorem output_truncation_and_order
    (idt qc : ℚ) (ms : ℤ) (dict? : Option SeqDict) (lines : List Str)
    (header : List Str) (st : PState)
    (hok : blast_Parser idt qc ms dict? lines = Except.ok st) :
    (st.out = [] → review_output (outputLines header st) = []) ∧
    (st.out ≠ [] →
      review_output (outputLines header st) = joinTab header :: st.out.map joinTab ∧
      ∃ S, S.Sublist lines ∧
        List.Forall₂ (fun l row => lineEmit idt qc (dict?.getD []) l = Except.ok (some row))
          S st.out) := by
  constructor
  · intro h0
    simp [review_output, outputLines, h0]
  · intro hne
    constructor
    · have hpos : 0 < st.out.length := List.length_pos.mpr hne
      have hlen : (outputLines header st).length ≠ 1 := by
        simp only [outputLines, List.length_cons, List.length_map]
        omega
      rw [review_output, if_neg hlen]
      rfl
    · rcases out_order idt qc ms (dict?.getD []) lines initState st hok with
        ⟨tail, S, hout, hsub, hfa⟩
      have htail : st.out = tail := by simpa [initState] using hout
      rw [htail]
      exact ⟨S, hsub, hfa⟩

/-- Witness for C3: a run whose only record fails the identity threshold
leaves zero rows and the output is truncated to nothing, while a run
with one passing record keeps the header followed by that row. -/
theorem output_truncation_and_order_witness :
    review_output (outputLines headerFull
      ⟨1, "Q1".data,
        [pySplitTab "Q1\tS1\t40\t100\t0\t0\t1\t50\t1\t50\t100\t100\t0.001\t200".data],
        []⟩) = [] ∧
    (review_output (outputLines headerFull
      ⟨1, "Q1".data,
        [pySplitTab "Q1\tS1\t95\t100\t0\t0\t1\t50\t1\t50\t100\t100\t0.001\t200".data],
        [pySplitTab "Q1\tS1\t95\t100\t0\t0\t1\t50\t1\t50\t100\t100\t0.001\t200".data
          ++ ["49.0".data]]⟩) =
        joinTab headerFull ::
          [pySplitTab "Q1\tS1\t95\t100\t0\t0\t1\t50\t1\t50\t100\t100\t0.001\t200".data
            ++ ["49.0".data]].map joinTab ∧
      ∃ S, S.Sublist ["Q1\tS1\t95\t100\t0\t0\t1\t50\t1\t50\t100\t100\t0.001\t200".data] ∧
        List.Forall₂ (fun l row => lineEmit 50 0 [] l = Except.ok (some row)) S
          [pySplitTab "Q1\tS1\t95\t100\t0\t0\t1\t50\t1\t50\t100\t100\t0.001\t200".data
            ++ ["49.0".data]]) :=
  ⟨(output_truncation_and_order 50 0 1 none
      ["Q1\tS1\t40\t100\t0\t0\t1\t50\t1\t50\t100\t100\t0.001\t200".data] headerFull
      ⟨1, "Q1".data,
        [pySplitTab "Q1\tS1\t40\t100\t0\t0\t1\t50\t1\t50\t100\t100\t0.001\t200".data],
        []⟩ (by decide)).1 rfl,
   (output_truncation_and_order 50 0 1 none
      ["Q1\tS1\t95\t100\t0\t0\t1\t50\t1\t50\t100\t100\t0.001\t200".data] headerFull
      ⟨1, "Q1".data,
        [pySplitTab "Q1\tS1\t95\t100\t0\t0\t1\t50\t1\t50\t100\t100\t0.001\t200".data],
        [pySplitTab "Q1\tS1\t95\t100\t0\t0\t1\t50\t1\t50\t100\t100\t0.001\t200".data
          ++ ["49.0".data]]⟩ (by decide)).2 (by decide)⟩

/-! ## C1: the per-query cap -/

theorem grouped_tail {a : Str} {l : List Str} (h : Grouped (a :: l)) : Grouped l := by
  cases l with
  | nil => exact List.nodup_nil
  | cons b t =>
    by_cases hab : a = b
    · unfold Grouped at h
      rw [collapseRuns, if_pos hab] at h
      exact h
    · unfold Grouped at h ⊢
      rw [collapseRuns, if_neg hab] at h
      exact h.of_cons

theorem mem_collapseRuns : ∀ (l : List Str), ∀ x ∈ l, x ∈ collapseRuns l
  | [] => by simp
  | [a] => by simp [collapseRuns]
  | a :: b :: t => by
    intro x hx
    rcases List.mem_cons.mp hx with rfl | hx2
    · by_cases hab : x = b
      · rw [collapseRuns, if_pos hab]
        exact mem_collapseRuns (b :: t) x (by rw [hab]; exact List.mem_cons_self _ _)
      · rw [collapseRuns, if_neg hab]
        exact List.mem_cons_self _ _
    · by_cases hab : a = b
      · rw [collapseRuns, if_pos hab]
        exact mem_collapseRuns (b :: t) x hx2
      · rw [collapseRuns, if_neg hab]
        exact List.mem_cons_of_mem _ (mem_collapseRuns (b :: t) x hx2)

theorem grouped_not_mem {a b : Str} {t : List Str}
    (h : Grouped (a :: b :: t)) (hab : a ≠ b) : a ∉ b :: t := by
  intro hmem
  unfold Grouped at h
  rw [collapseRuns, if_neg hab] at h
  exact (List.nodup_cons.mp h).1 (mem_collapseRuns _ _ hmem)

theorem grouped_dedup_head {a : Str} {l : List Str}
    (h : Grouped (a :: a :: l)) : Grouped (a :: l) := by
  unfold Grouped at h ⊢
  rwa [collapseRuns, if_pos rfl] at h

theorem grouped_dedup_head_rev {a : Str} {l : List Str}
    (h : Grouped (a :: l)) : Grouped (a :: a :: l) := by
  unfold Grouped at h ⊢
  rwa [collapseRuns, if_pos rfl]

theorem countQ_append (r1 r2 : List (List Str)) (q : Str) :
    countQ (r1 ++ r2) q = countQ r1 q + countQ r2 q := by
  simp [countQ, List.filter_append]

theorem countQ_singleton (r : List Str) (q : Str) :
    countQ [r] q = if r.headI = q then 1 else 0 := by
  by_cases h : r.headI = q
  · simp [countQ, List.filter, h]
  · simp [countQ, List.filter, h]

theorem countQ_nil (q : Str) : countQ [] q = 0 := rfl

theorem pyConsider_state (idt qc : ℚ) (sd : SeqDict) (st : PState)
    (items : List Str) (quer : Str) (st1 : PState)
    (h : pyConsider idt qc sd st items quer = Except.ok st1) :
    st1.times = st.times ∧ st1.querLast = st.querLast ∧
    st1.considered = st.considered ++ [items] ∧
    (st1.out = st.out ∨ ∃ cov, st1.out = st.out ++ [emitForm sd quer items cov]) := by
  cases hcov : covOf items with
  | error e => simp [pyConsider, hcov] at h
  | ok qcov =>
    cases h2 : pyGet items 2 with
    | error e => simp [pyConsider, hcov, h2] at h
    | ok f2 =>
      cases hfl : pyFloat f2 with
      | error e => simp [pyConsider, hcov, h2, hfl] at h
      | ok ident =>
        simp only [pyConsider, hcov, h2, hfl, exbind_ok] at h
        by_cases hth : ident < idt ∨ qcov < qc
        · rw [if_pos hth] at h
          cases h
          exact ⟨rfl, rfl, rfl, Or.inl rfl⟩
        · rw [if_neg hth] at h
          cases h
          exact ⟨rfl, rfl, rfl, Or.inr ⟨qcov, rfl⟩⟩

theorem emitForm_headI (sd : SeqDict) (quer : Str) (items : List Str) (cov : ℚ)
    (hne : items ≠ []) : (emitForm sd quer items cov).headI = items.headI := by
  unfold emitForm
  by_cases hsd : sd.isEmpty
  · simp only [if_pos hsd]
    exact headI_append_of_ne_nil _ hne
  · simp only [if_neg hsd]
    rw [List.append_assoc]
    exact headI_append_of_ne_nil _ hne

theorem pyStep_spec (idt qc : ℚ) (ms : ℤ) (sd : SeqDict) (st st1 : PState)
    (line : Str) (h : pyStep idt qc ms sd st line = Except.ok st1) :
    (lineQid line = st.querLast ∧ ((st.times + 1 : ℕ) : ℤ) > ms ∧
      st1 = { st with times := st.times + 1 }) ∨
    ((lineQid line = st.querLast ∧ ¬(((st.times + 1 : ℕ) : ℤ) > ms) ∧
        st1.times = st.times + 1 ∨
      lineQid line ≠ st.querLast ∧ st1.times = 1) ∧
      st1.querLast = lineQid line ∧
      st1.considered = st.considered ++ [pySplitTab (pyStrip line)] ∧
      (st1.out = st.out ∨ ∃ row, row.headI = lineQid line ∧
        st1.out = st.out ++ [row])) := by
  have hne : pySplitTab (pyStrip line) ≠ [] := pySplitTab_ne_nil _
  simp only [pyStep, pyGet_zero_eq_headI, exbind_ok] at h
  by_cases heq : (pySplitTab (pyStrip line)).headI = st.querLast
  · rw [if_pos heq] at h
    by_cases hcap : ((st.times + 1 : ℕ) : ℤ) > ms
    · rw [if_pos hcap] at h
      cases h
      exact Or.inl ⟨heq, hcap, rfl⟩
    · rw [if_neg hcap] at h
      rcases pyConsider_state _ _ _ _ _ _ _ h with ⟨ht, hq, hcons, hout⟩
      refine Or.inr ⟨Or.inl ⟨heq, hcap, ht⟩, by rw [hq]; exact heq.symm ▸ rfl, hcons, ?_⟩
      rcases hout with hout | ⟨cov, hout⟩
      · exact Or.inl hout
      · exact Or.inr ⟨_, emitForm_headI _ _ _ _ hne, hout⟩
  · rw [if_neg heq] at h
    rcases pyConsider_state _ _ _ _ _ _ _ h with ⟨ht, hq, hcons, hout⟩
    refine Or.inr ⟨Or.inr ⟨heq, ht⟩, hq, hcons, ?_⟩
    rcases hout with hout | ⟨cov, hout⟩
    · exact Or.inl hout
    · exact Or.inr ⟨_, emitForm_headI _ _ _ _ hne, hout⟩

theorem cap_invariant (idt qc : ℚ) (ms : ℤ) (sd : SeqDict) (hms : 1 ≤ ms)
    (rest : List Str) :
    ∀ (st st' : PState),
      rest.foldlM (pyStep idt qc ms sd) st = Except.ok st' →
      Grouped (rest.map lineQid) →
      (∀ q ∈ rest.map lineQid, q ≠ st.querLast → countQ st.considered q = 0) →
      (countQ st.considered st.querLast = 0 ∨
        Grouped (st.querLast :: rest.map lineQid)) →
      (∀ q, q ≠ st.querLast → (countQ st.considered q : ℤ) ≤ ms) →
      countQ st.considered st.querLast ≤ st.times →
      ((countQ st.considered st.querLast : ℤ) ≤ ms) →
      (∀ q, countQ st.out q ≤ countQ st.considered q) →
      (∀ q, (countQ st'.considered q : ℤ) ≤ ms) ∧
      (∀ q, countQ st'.out q ≤ countQ st'.considered q) := by
  induction rest with
  | nil =>
    intro st st' h hg hfresh hthird hother htimes hcap houtle
    simp only [List.foldlM_nil] at h
    cases h
    refine ⟨fun q => ?_, houtle⟩
    by_cases hq : q = st.querLast
    · rw [hq]; exact hcap
    · exact hother q hq
  | cons line t ih =>
    intro st st' h hg hfresh hthird hother htimes hcap houtle
    rw [List.foldlM_cons] at h
    cases hstep : pyStep idt qc ms sd st line with
    | error e => rw [hstep] at h; simp at h
    | ok st1 =>
      rw [hstep, exbind_ok] at h
      rcases pyStep_spec _ _ _ _ _ _ _ hstep with
        ⟨heq, hcap2, hst1⟩ | ⟨htimes1, hq1, hcons1, hout1⟩
      · -- the record is skipped by the cap: only times changes
        subst hst1
        refine ih _ st' h (grouped_tail hg)
          (fun q hq hne => hfresh q (List.mem_cons_of_mem _ hq) hne) ?_
          hother (le_trans htimes (Nat.le_succ _)) hcap houtle
        rcases hthird with h0 | hgr
        · exact Or.inl h0
        · refine Or.inr ?_
          rw [show (line :: t).map lineQid = lineQid line :: t.map lineQid from rfl,
            heq] at hgr
          exact grouped_dedup_head hgr
      · -- the record is considered
        have hcnt : ∀ q, countQ st1.considered q =
            countQ st.considered q + (if lineQid line = q then 1 else 0) := by
          intro q
          rw [hcons1, countQ_append, countQ_singleton]
          rfl
        have houtle1 : ∀ q, countQ st1.out q ≤ countQ st1.considered q := by
          intro q
          rw [hcnt q]
          rcases hout1 with hout | ⟨row, hrh, hout⟩
          · rw [hout]
            exact le_trans (houtle q) (Nat.le_add_right _ _)
          · rw [hout, countQ_append, countQ_singleton, hrh]
            exact Nat.add_le_add (houtle q) (le_refl _)
        have hgq : Grouped (lineQid line :: t.map lineQid) := hg
        rcases htimes1 with ⟨heq, hncap, ht1⟩ | ⟨hne0, ht1⟩
        · -- same query id as the previous record
          have hcQL : countQ st.considered (lineQid line) ≤ st.times := by
            rw [heq]; exact htimes
          refine ih st1 st' h (grouped_tail hg) ?_ ?_ ?_ ?_ ?_ houtle1
          · intro q hq hne
            rw [hq1] at hne
            rw [hcnt q, if_neg (fun hh => hne hh.symm), Nat.add_zero]
            exact hfresh q (List.mem_cons_of_mem _ hq) (by rw [← heq]; exact hne)
          · exact Or.inr (by rw [hq1]; exact hgq)
          · intro q hne
            rw [hq1] at hne
            rw [hcnt q, if_neg (fun hh => hne hh.symm), Nat.add_zero]
            exact hother q (by rw [← heq]; exact hne)
          · rw [hq1, ht1, hcnt (lineQid line), if_pos rfl]
            exact Nat.add_le_add hcQL (le_refl 1)
          · rw [hq1, hcnt (lineQid line), if_pos rfl]
            have h1 : ((st.times + 1 : ℕ) : ℤ) ≤ ms := not_lt.mp hncap
            have h2 : countQ st.considered (lineQid line) + 1 ≤ st.times + 1 :=
              Nat.add_le_add hcQL (le_refl 1)
            omega
        · -- a new query id starts here
          have hql0 : st.querLast ∈ t.map lineQid →
              countQ st.considered st.querLast = 0 := by
            intro hmem
            rcases hthird with h0 | hgr
            · exact h0
            · exact absurd (List.mem_cons_of_mem _ hmem)
                (grouped_not_mem hgr (fun hh => hne0 hh.symm))
          have hq00 : countQ st.considered (lineQid line) = 0 :=
            hfresh (lineQid line) (List.mem_cons_self _ _) hne0
          refine ih st1 st' h (grouped_tail hg) ?_ ?_ ?_ ?_ ?_ houtle1
          · intro q hq hne
            rw [hq1] at hne
            rw [hcnt q, if_neg (fun hh => hne hh.symm), Nat.add_zero]
            by_cases hql : q = st.querLast
            · rw [hql]; exact hql0 (hql ▸ hq)
            · exact hfresh q (List.mem_cons_of_mem _ hq) hql
          · exact Or.inr (by rw [hq1]; exact hgq)
          · intro q hne
            rw [hq1] at hne
            rw [hcnt q, if_neg (fun hh => hne hh.symm), Nat.add_zero]
            by_cases hql : q = st.querLast
            · rw [hql]; exact hcap
            · exact hother q hql
          · rw [hq1, ht1, hcnt (lineQid line), if_pos rfl, hq00]
          · rw [hq1, hcnt (lineQid line), if_pos rfl, hq00]
            simpa using hms

/-- C1: on a stream grouped by query id, with `max_hits_per_query ≥ 1`,
at most `ms` records per query id pass the cap and reach threshold
evaluation (they are recorded in the ghost field `considered`, whether
the thresholds later reject them or not), the emitted rows for a query
are among those considered records, and hence at most `ms` records per
query id are emitted. -/
theorem cap_per_query
    (idt qc : ℚ) (ms : ℤ) (dict? : Option SeqDict) (lines : List Str) (st : PState)
    (hms : 1 ≤ ms)
    (hg : Grouped (lines.map lineQid))
    (hok : blast_Parser idt qc ms dict? lines = Except.ok st) :
    ∀ q, (countQ st.considered q : ℤ) ≤ ms ∧
      countQ st.out q ≤ countQ st.considered q ∧
      (countQ st.out q : ℤ) ≤ ms := by
  have hmain := cap_invariant idt qc ms (dict?.getD []) hms lines initState st hok hg
    (fun q hq hne => rfl)
    (Or.inl rfl)
    (fun q hne => by show ((0 : ℕ) : ℤ) ≤ ms; omega)
    (Nat.le_refl 0)
    (by show ((0 : ℕ) : ℤ) ≤ ms; omega)
    (fun q => Nat.le_refl 0)
  intro q
  obtain ⟨h1, h2⟩ := hmain
  refine ⟨h1 q, h2 q, ?_⟩
  have ha := h1 q
  have hb := h2 q
  omega

/-- Witness for C1, Scenario A: three hits for Q1 with identities
95, 40, 99, identity threshold 50, cap 2: exactly two records are
considered (the rejected identity-40 hit consumed a cap slot) and
exactly one row is emitted. -/
theorem cap_per_query_witness :
    Grouped (["Q1\tS1\t95\t100\t0\t0\t1\t50\t1\t50\t100\t100\t0.001\t200".data,
              "Q1\tS1\t40\t100\t0\t0\t1\t50\t1\t50\t100\t100\t0.001\t200".data,
              "Q1\tS1\t99\t100\t0\t0\t1\t50\t1\t50\t100\t100\t0.001\t200".data].map lineQid) ∧
    ((countQ (PState.mk 3 "Q1".data
        [pySplitTab "Q1\tS1\t95\t100\t0\t0\t1\t50\t1\t50\t100\t100\t0.001\t200".data,
         pySplitTab "Q1\tS1\t40\t100\t0\t0\t1\t50\t1\t50\t100\t100\t0.001\t200".data]
        [pySplitTab "Q1\tS1\t95\t100\t0\t0\t1\t50\t1\t50\t100\t100\t0.001\t200".data
          ++ ["49.0".data]]).considered "Q1".data : ℤ) ≤ 2 ∧
      countQ (PState.mk 3 "Q1".data
        [pySplitTab "Q1\tS1\t95\t100\t0\t0\t1\t50\t1\t50\t100\t100\t0.001\t200".data,
         pySplitTab "Q1\tS1\t40\t100\t0\t0\t1\t50\t1\t50\t100\t100\t0.001\t200".data]
        [pySplitTab "Q1\tS1\t95\t100\t0\t0\t1\t50\t1\t50\t100\t100\t0.001\t200".data
          ++ ["49.0".data]]).out "Q1".data ≤
        countQ (PState.mk 3 "Q1".data
        [pySplitTab "Q1\tS1\t95\t100\t0\t0\t1\t50\t1\t50\t100\t100\t0.001\t200".data,
         pySplitTab "Q1\tS1\t40\t100\t0\t0\t1\t50\t1\t50\t100\t100\t0.001\t200".data]
        [pySplitTab "Q1\tS1\t95\t100\t0\t0\t1\t50\t1\t50\t100\t100\t0.001\t200".data
          ++ ["49.0".data]]).considered "Q1".data ∧
      (countQ (PState.mk 3 "Q1".data
        [pySplitTab "Q1\tS1\t95\t100\t0\t0\t1\t50\t1\t50\t100\t100\t0.001\t200".data,
         pySplitTab "Q1\tS1\t40\t100\t0\t0\t1\t50\t1\t50\t100\t100\t0.001\t200".data]
        [pySplitTab "Q1\tS1\t95\t100\t0\t0\t1\t50\t1\t50\t100\t100\t0.001\t200".data
          ++ ["49.0".data]]).out "Q1".data : ℤ) ≤ 2) ∧
    countQ [pySplitTab "Q1\tS1\t95\t100\t0\t0\t1\t50\t1\t50\t100\t100\t0.001\t200".data,
            pySplitTab "Q1\tS1\t40\t100\t0\t0\t1\t50\t1\t50\t100\t100\t0.001\t200".data]
      "Q1".data = 2 ∧
    countQ [pySplitTab "Q1\tS1\t95\t100\t0\t0\t1\t50\t1\t50\t100\t100\t0.001\t200".data
      ++ ["49.0".data]] "Q1".data = 1 :=
  ⟨by decide,
   cap_per_query 50 0 2 none
     ["Q1\tS1\t95\t100\t0\t0\t1\t50\t1\t50\t100\t100\t0.001\t200".data,
      "Q1\tS1\t40\t100\t0\t0\t1\t50\t1\t50\t100\t100\t0.001\t200".data,
      "Q1\tS1\t99\t100\t0\t0\t1\t50\t1\t50\t100\t100\t0.001\t200".data]
     (PState.mk 3 "Q1".data
        [pySplitTab "Q1\tS1\t95\t100\t0\t0\t1\t50\t1\t50\t100\t100\t0.001\t200".data,
         pySplitTab "Q1\tS1\t40\t100\t0\t0\t1\t50\t1\t50\t100\t100\t0.001\t200".data]
        [pySplitTab "Q1\tS1\t95\t100\t0\t0\t1\t50\t1\t50\t100\t100\t0.001\t200".data
          ++ ["49.0".data]])
     (by decide) (by decide) (by decide) "Q1".data,
   by decide, by decide⟩

/-! ## Lemmas about the defaultdict operations -/

theorem pyGet_zero_of_ne_nil {α : Type} [Inhabited α] {l : List α}
    (h : l ≠ []) : pyGet l 0 = Except.ok l.headI := by
  cases l with
  | nil => exact absurd rfl h
  | cons a t => simp [pyGet]

theorem ddLookup_ddAppend (d : SeqDict) (q s k : Str) :
    ddLookup (ddAppend d q s) k =
      if q = k then ddLookup d k ++ s else ddLookup d k := by
  induction d with
  | nil =>
    by_cases hqk : q = k
    · simp [ddAppend, ddLookup, hqk]
    · simp [ddAppend, ddLookup, hqk]
  | cons kv t ih =>
    obtain ⟨k0, v⟩ := kv
    by_cases hk0q : k0 = q
    · subst hk0q
      by_cases hqk : k0 = k
      · simp [ddAppend, ddLookup, hqk]
      · simp [ddAppend, ddLookup, hqk]
    · by_cases hk0k : k0 = k
      · subst hk0k
        have hqk : q ≠ k0 := fun hh => hk0q hh.symm
        simp [ddAppend, ddLookup, hk0q, hqk]
      · simp [ddAppend, ddLookup, hk0q, hk0k, ih]

theorem ddAppend_mem (d : SeqDict) (q s : Str) :
    ∀ kv ∈ ddAppend d q s, (∃ kv0 ∈ d, kv0.1 = kv.1) ∨ kv.1 = q := by
  induction d with
  | nil =>
    intro kv hm
    rcases List.mem_singleton.mp hm with rfl
    exact Or.inr rfl
  | cons kv0 t ih =>
    obtain ⟨k0, v⟩ := kv0
    intro kv hm
    by_cases hk0q : k0 = q
    · rw [ddAppend, if_pos hk0q] at hm
      rcases List.mem_cons.mp hm with rfl | hm2
      · exact Or.inl ⟨(k0, v), List.mem_cons_self _ _, rfl⟩
      · exact Or.inl ⟨kv, List.mem_cons_of_mem _ hm2, rfl⟩
    · rw [ddAppend, if_neg hk0q] at hm
      rcases List.mem_cons.mp hm with rfl | hm2
      · exact Or.inl ⟨(k0, v), List.mem_cons_self _ _, rfl⟩
      · rcases ih kv hm2 with ⟨kv0, hkv0, he⟩ | he
        · exact Or.inl ⟨kv0, List.mem_cons_of_mem _ hkv0, he⟩
        · exact Or.inr he

/-! ## C7: the index builder raises on a bare header marker -/

/-- Counterexample for C7: the sequence-index builder raises an index
error on the input consisting of the single header line consisting of
only the marker, so it is not true that it never raises on malformed
content. -/
theorem creat_dict_raises_on_bare_marker :
    creat_dict [">\n".data] = Except.error "IndexError" := by decide

/-- C7 as amended: the sequence-index builder never raises except when a
header line carries no identifier token after the marker (then
`line[1:-1].split()[0]` raises `IndexError`); on every input whose
header lines all have a token it returns a mapping. -/
theorem creat_dict_total
    (lines : List Str)
    (hw : ∀ l ∈ lines, startsGt l = true → pySplitWS ((l.drop 1).dropLast) ≠ []) :
    ∃ d, creat_dict lines = Except.ok d := by
  suffices h : ∀ (ls : List Str) (st : Str × SeqDict),
      (∀ l ∈ ls, startsGt l = true → pySplitWS ((l.drop 1).dropLast) ≠ []) →
      ∃ p, ls.foldlM cdStep st = Except.ok p by
    obtain ⟨p, hp⟩ := h lines ([], []) hw
    exact ⟨p.2, by unfold creat_dict; rw [hp]; rfl⟩
  intro ls
  induction ls with
  | nil => exact fun st _ => ⟨st, rfl⟩
  | cons l t ih =>
    intro st hall
    by_cases hh : startsGt l = true
    · have hne := hall l (List.mem_cons_self _ _) hh
      have hstep : cdStep st l =
          Except.ok ((pySplitWS ((l.drop 1).dropLast)).headI, st.2) := by
        unfold cdStep
        rw [if_pos hh, pyGet_zero_of_ne_nil hne]
        rfl
      obtain ⟨p, hp⟩ := ih ((pySplitWS ((l.drop 1).dropLast)).headI, st.2)
        (fun l2 hm => hall l2 (List.mem_cons_of_mem _ hm))
      exact ⟨p, by rw [List.foldlM_cons, hstep, exbind_ok, hp]⟩
    · have hstep : cdStep st l =
          Except.ok (st.1, ddAppend st.2 st.1 (pyStrip l)) := by
        unfold cdStep
        rw [if_neg hh]
        rfl
      obtain ⟨p, hp⟩ := ih (st.1, ddAppend st.2 st.1 (pyStrip l))
        (fun l2 hm => hall l2 (List.mem_cons_of_mem _ hm))
      exact ⟨p, by rw [List.foldlM_cons, hstep, exbind_ok, hp]⟩

/-- Witness for C7 (amended): a well-formed input yields a mapping. -/
theorem creat_dict_total_witness :
    ∃ d, creat_dict [">Q1 desc\n".data, "ACGT\n".data, ">Q2\n".data, "TT".data] =
      Except.ok d :=
  creat_dict_total [">Q1 desc\n".data, "ACGT\n".data, ">Q2\n".data, "TT".data]
    (by decide)

/-! ## C8: a duplicate header concatenates into the existing entry -/

/-- C8: when a header line whose identifier `k` already has an entry in
the dict built so far is followed by a sequence line, the builder
neither raises nor resets the entry: the stripped sequence text is
appended to the entry already accumulated for `k`. -/
theorem duplicate_header_appends
    (pre : List Str) (n k : Str) (d : SeqDict) (hl sl : Str)
    (hpre : pre.foldlM cdStep ([], []) = Except.ok (n, d))
    (hh : startsGt hl = true)
    (hk : pyGet (pySplitWS ((hl.drop 1).dropLast)) 0 = Except.ok k)
    (hdup : ∃ kv ∈ d, kv.1 = k)
    (hs : startsGt sl = false) :
    creat_dict (pre ++ [hl, sl]) = Except.ok (ddAppend d k (pyStrip sl)) ∧
    ddLookup (ddAppend d k (pyStrip sl)) k = ddLookup d k ++ pyStrip sl := by
  constructor
  · unfold creat_dict
    rw [List.foldlM_append, hpre, exbind_ok, List.foldlM_cons]
    have h1 : cdStep (n, d) hl = Except.ok (k, d) := by
      unfold cdStep
      rw [if_pos hh, hk]
      rfl
    rw [h1, exbind_ok, List.foldlM_cons]
    have h2 : cdStep (k, d) sl = Except.ok (k, ddAppend d k (pyStrip sl)) := by
      unfold cdStep
      rw [if_neg (by rw [hs]; exact Bool.false_ne_true)]
      rfl
    rw [h2, exbind_ok, List.foldlM_nil]
    rfl
  · rw [ddLookup_ddAppend, if_pos rfl]

/-- Witness for C8: a second `>Q1` header followed by `CC` extends the
entry `Q1 -> AA` to `Q1 -> AACC`. -/
theorem duplicate_header_appends_witness :
    (creat_dict ([">Q1\n".data, "AA\n".data] ++ [">Q1\n".data, "CC\n".data]) =
      Except.ok (ddAppend [("Q1".data, "AA".data)] "Q1".data
        (pyStrip "CC\n".data)) ∧
     ddLookup (ddAppend [("Q1".data, "AA".data)] "Q1".data
        (pyStrip "CC\n".data)) "Q1".data =
       ddLookup [("Q1".data, "AA".data)] "Q1".data ++ pyStrip "CC\n".data) ∧
    ddLookup (ddAppend [("Q1".data, "AA".data)] "Q1".data
      (pyStrip "CC\n".data)) "Q1".data = "AACC".data :=
  ⟨duplicate_header_appends [">Q1\n".data, "AA\n".data] "Q1".data "Q1".data
      [("Q1".data, "AA".data)] ">Q1\n".data "CC\n".data
      (by decide) (by decide) (by decide) (by decide) (by decide),
    by decide⟩

/-! ## C5: lines before the first header land under the empty identifier -/

theorem cdStep_header_ok {l nm : Str} (hh : startsGt l = true)
    (hg : pyGet (pySplitWS ((l.drop 1).dropLast)) 0 = Except.ok nm)
    (st : Str × SeqDict) : cdStep st l = Except.ok (nm, st.2) := by
  unfold cdStep
  rw [if_pos hh, hg]
  rfl

theorem cdStep_header_err {l : Str} {e : String} (hh : startsGt l = true)
    (hg : pyGet (pySplitWS ((l.drop 1).dropLast)) 0 = Except.error e)
    (st : Str × SeqDict) : cdStep st l = Except.error e := by
  unfold cdStep
  rw [if_pos hh, hg]
  rfl

theorem cdStep_seq {l : Str} (hh : ¬ startsGt l = true) (st : Str × SeqDict) :
    cdStep st l = Except.ok (st.1, ddAppend st.2 st.1 (pyStrip l)) := by
  unfold cdStep
  rw [if_neg hh]
  rfl

theorem cd_equiv (ls : List Str) :
    ∀ (n : Str) (d1 d2 : SeqDict),
      (∀ k, k ≠ [] → ddLookup d1 k = ddLookup d2 k) →
      (∃ e, ls.foldlM cdStep (n, d1) = Except.error e ∧
            ls.foldlM cdStep (n, d2) = Except.error e) ∨
      (∃ m e1 e2, ls.foldlM cdStep (n, d1) = Except.ok (m, e1) ∧
            ls.foldlM cdStep (n, d2) = Except.ok (m, e2) ∧
            ∀ k, k ≠ [] → ddLookup e1 k = ddLookup e2 k) := by
  induction ls with
  | nil =>
    intro n d1 d2 hld
    exact Or.inr ⟨n, d1, d2, rfl, rfl, hld⟩
  | cons l t ih =>
    intro n d1 d2 hld
    by_cases hh : startsGt l = true
    · cases hg : pyGet (pySplitWS ((l.drop 1).dropLast)) 0 with
      | error e =>
        refine Or.inl ⟨e, ?_, ?_⟩ <;>
          rw [List.foldlM_cons, cdStep_header_err hh hg, exbind_error]
      | ok nm =>
        have e1 : (l :: t).foldlM cdStep (n, d1) = t.foldlM cdStep (nm, d1) := by
          rw [List.foldlM_cons, cdStep_header_ok hh hg, exbind_ok]
        have e2 : (l :: t).foldlM cdStep (n, d2) = t.foldlM cdStep (nm, d2) := by
          rw [List.foldlM_cons, cdStep_header_ok hh hg, exbind_ok]
        rw [e1, e2]
        exact ih nm d1 d2 hld
    · have e1 : (l :: t).foldlM cdStep (n, d1) =
          t.foldlM cdStep (n, ddAppend d1 n (pyStrip l)) := by
        rw [List.foldlM_cons, cdStep_seq hh, exbind_ok]
      have e2 : (l :: t).foldlM cdStep (n, d2) =
          t.foldlM cdStep (n, ddAppend d2 n (pyStrip l)) := by
        rw [List.foldlM_cons, cdStep_seq hh, exbind_ok]
      rw [e1, e2]
      refine ih n _ _ ?_
      intro k hk
      rw [ddLookup_ddAppend, ddLookup_ddAppend]
      by_cases hnk : n = k
      · rw [if_pos hnk, if_pos hnk, hld k hk]
      · rw [if_neg hnk, if_neg hnk, hld k hk]

theorem preheader_fold (pre : List Str) :
    ∀ d0 : SeqDict, (∀ l ∈ pre, startsGt l = false) →
      ∃ dpre, pre.foldlM cdStep ([], d0) = Except.ok ([], dpre) ∧
        ∀ k, k ≠ [] → ddLookup dpre k = ddLookup d0 k := by
  induction pre with
  | nil => exact fun d0 _ => ⟨d0, rfl, fun k _ => rfl⟩
  | cons l t ih =>
    intro d0 h
    have hh : ¬ startsGt l = true := by
      rw [h l (List.mem_cons_self _ _)]
      exact Bool.false_ne_true
    obtain ⟨dpre, hf, hlk⟩ := ih (ddAppend d0 [] (pyStrip l))
      (fun l2 hm => h l2 (List.mem_cons_of_mem _ hm))
    refine ⟨dpre, ?_, ?_⟩
    · rw [List.foldlM_cons, cdStep_seq hh, exbind_ok]
      exact hf
    · intro k hk
      rw [hlk k hk, ddLookup_ddAppend, if_neg (fun hh2 => hk hh2.symm)]

/-- Counterexample for C5: a non-header line before the first header is
not ignored — it is accumulated in the mapping under the empty-string
identifier (the initial sentinel value of `name`). -/
theorem preheader_entry_counterexample :
    creat_dict ["ACGT\n".data, ">Q1\n".data, "GGGG\n".data] =
      Except.ok [([], "ACGT".data), ("Q1".data, "GGGG".data)] ∧
    ([], "ACGT".data) ∈ [(([] : Str), "ACGT".data), ("Q1".data, "GGGG".data)] :=
  ⟨by decide, by decide⟩

/-- C5 as amended: non-header lines before the first header contribute
only to the entry keyed by the empty identifier; the entry of every
non-empty identifier (and the error behaviour) is the same as if the
pre-header lines were absent. -/
theorem preheader_lines_only_empty_key (pre rest : List Str) (k : Str)
    (hpre : ∀ l ∈ pre, startsGt l = false) (hk : k ≠ []) :
    (creat_dict (pre ++ rest)).map (fun d => ddLookup d k) =
    (creat_dict rest).map (fun d => ddLookup d k) := by
  obtain ⟨dpre, hf, hlk⟩ := preheader_fold pre [] hpre
  unfold creat_dict
  rw [List.foldlM_append, hf, exbind_ok]
  rcases cd_equiv rest [] dpre [] (fun k2 hk2 => hlk k2 hk2) with
    ⟨e, h1, h2⟩ | ⟨m, e1, e2, h1, h2, hleq⟩
  · rw [h1, h2]
  · rw [h1, h2]
    simp only [Except.map]
    exact congrArg Except.ok (hleq k hk)

/-- Witness for C5 (amended): the `ACGT` line before the first header
does not change the entry of `Q1`. -/
theorem preheader_lines_only_empty_key_witness :
    (creat_dict (["ACGT\n".data] ++ [">Q1\n".data, "GG\n".data])).map
      (fun d => ddLookup d "Q1".data) =
    (creat_dict [">Q1\n".data, "GG\n".data]).map (fun d => ddLookup d "Q1".data) :=
  preheader_lines_only_empty_key ["ACGT\n".data] [">Q1\n".data, "GG\n".data]
    "Q1".data (by decide) (by decide)

/-! ## C6: stored identifiers match the spec reading of header lines -/

theorem codeName_eq_specIdent {l : Str} (hh : startsGt l = true)
    (hnl : l.getLast? = some '\n') :
    pyGet (pySplitWS ((l.drop 1).dropLast)) 0 = specHeaderIdent l := by
  cases l with
  | nil => simp [startsGt] at hh
  | cons c r =>
    cases r with
    | nil =>
      have hc : c = '\n' := by simpa using hnl
      subst hc
      exact absurd hh (by decide)
    | cons b rr =>
      have hr : (b :: rr).getLast? = some '\n' := by
        rw [List.getLast?_cons_cons] at hnl
        exact hnl
      have hdrop : (c :: b :: rr).drop 1 = b :: rr := rfl
      simp only [specHeaderIdent, hdrop, hr, reduceIte]

theorem cd_keys (rest : List Str) :
    ∀ (n : Str) (d : SeqDict) (p : Str × SeqDict),
      rest.foldlM cdStep (n, d) = Except.ok p →
      ∀ kv ∈ p.2, (∃ kv0 ∈ d, kv0.1 = kv.1) ∨ (kv.1 = n ∧ rest ≠ []) ∨
        (∃ l ∈ rest.dropLast, startsGt l = true ∧
          pyGet (pySplitWS ((l.drop 1).dropLast)) 0 = Except.ok kv.1) := by
  induction rest with
  | nil =>
    intro n d p h kv hm
    simp only [List.foldlM_nil] at h
    cases h
    exact Or.inl ⟨kv, hm, rfl⟩
  | cons l t ih =>
    intro n d p h kv hm
    rw [List.foldlM_cons] at h
    by_cases hh : startsGt l = true
    · cases hg : pyGet (pySplitWS ((l.drop 1).dropLast)) 0 with
      | error e =>
        rw [cdStep_header_err hh hg, exbind_error] at h
        simp at h
      | ok nm =>
        rw [cdStep_header_ok hh hg, exbind_ok] at h
        rcases ih nm d p h kv hm with h1 | ⟨hkn, htne⟩ | ⟨l2, hl2, hh2, hg2⟩
        · exact Or.inl h1
        · refine Or.inr (Or.inr ⟨l, ?_, hh, by rw [hkn]; exact hg⟩)
          rw [List.dropLast_cons_of_ne_nil htne]
          exact List.mem_cons_self _ _
        · have htne : t ≠ [] := by
            intro hteq
            rw [hteq] at hl2
            simp at hl2
          refine Or.inr (Or.inr ⟨l2, ?_, hh2, hg2⟩)
          rw [List.dropLast_cons_of_ne_nil htne]
          exact List.mem_cons_of_mem _ hl2
    · rw [cdStep_seq hh, exbind_ok] at h
      rcases ih _ _ p h kv hm with ⟨kv0, hkv0, he⟩ | ⟨hkn, htne⟩ | ⟨l2, hl2, hh2, hg2⟩
      · rcases ddAppend_mem d _ (pyStrip l) kv0 hkv0 with ⟨kv00, hkv00, he2⟩ | he2
        · exact Or.inl ⟨kv00, hkv00, he2.trans he⟩
        · exact Or.inr (Or.inl ⟨by rw [← he]; exact he2, List.cons_ne_nil _ _⟩)
      · exact Or.inr (Or.inl ⟨hkn, List.cons_ne_nil _ _⟩)
      · have htne : t ≠ [] := by
          intro hteq
          rw [hteq] at hl2
          simp at hl2
        refine Or.inr (Or.inr ⟨l2, ?_, hh2, hg2⟩)
        rw [List.dropLast_cons_of_ne_nil htne]
        exact List.mem_cons_of_mem _ hl2

/-- C6: on a well-formed line list (every line except possibly the last
carries its newline, as Python file iteration guarantees), the code's
identifier computation `line[1:-1].split()[0]` agrees with the spec's
"first whitespace-delimited token after the marker, trailing terminator
stripped" on every header line that can contribute an entry, and every
identifier stored in the resulting mapping (other than the empty-string
sentinel, which no header produces) is the spec identifier of some
header line of the input. -/
theorem header_ident_spec (lines : List Str) (d : SeqDict)
    (hw : ∀ l ∈ lines.dropLast, l.getLast? = some '\n')
    (hok : creat_dict lines = Except.ok d) :
    (∀ l ∈ lines.dropLast, startsGt l = true →
      pyGet (pySplitWS ((l.drop 1).dropLast)) 0 = specHeaderIdent l) ∧
    (∀ kv ∈ d, kv.1 ≠ [] →
      ∃ l ∈ lines, startsGt l = true ∧ specHeaderIdent l = Except.ok kv.1) := by
  constructor
  · intro l hm hh
    exact codeName_eq_specIdent hh (hw l hm)
  · intro kv hm hne
    cases hfold : lines.foldlM cdStep ([], []) with
    | error e =>
      rw [creat_dict, hfold] at hok
      simp [Except.map] at hok
    | ok p =>
      have hd : d = p.2 := by
        rw [creat_dict, hfold] at hok
        simp only [Except.map] at hok
        cases hok
        rfl
      rcases cd_keys lines [] [] p hfold kv (hd ▸ hm) with
        ⟨kv0, hkv0, _⟩ | ⟨hkn, _⟩ | ⟨l, hl, hh, hg⟩
      · simp at hkv0
      · exact absurd hkn hne
      · refine ⟨l, List.dropLast_subset _ hl, hh, ?_⟩
        rw [← codeName_eq_specIdent hh (hw l hl)]
        exact hg

/-- Witness for C6: a header with a description and trailing newline
stores exactly its first token. -/
theorem header_ident_spec_witness :
    (∀ l ∈ [">Q1 desc\n".data, "ACGT\n".data].dropLast, startsGt l = true →
      pyGet (pySplitWS ((l.drop 1).dropLast)) 0 = specHeaderIdent l) ∧
    (∀ kv ∈ [("Q1".data, "ACGT".data)], kv.1 ≠ [] →
      ∃ l ∈ [">Q1 desc\n".data, "ACGT\n".data], startsGt l = true ∧
        specHeaderIdent l = Except.ok kv.1) :=
  header_ident_spec [">Q1 desc\n".data, "ACGT\n".data] [("Q1".data, "ACGT".data)]
    (by decide) (by decide)
